import Mathlib

/-!
Shallow embedding of the DevConsole content-workflow console core
(`src/unnamed/part_001`): the log ring buffer (`addLog`), the metric
simulator (`updateSystem`), the workflow step rotator (`nextStep`) and the
advisor-call controller (`handleSync`, split at its await point into
`triggerStart` and `finishRequest`).  Numbers are modelled over `ℚ`
(JS doubles idealised as rationals), timestamps (`Date.now()`) as `ℕ`.
-/

namespace DevConsole

/-- The three log entry kinds of the source: info, ai and error. -/
inductive LogType where
  | info
  | ai
  | error
  deriving DecidableEq, Repr

/-- Structure `LogEntry` from the source: an id string, a text string and a kind. -/
structure LogEntry where
  id : String
  text : String
  type : LogType
  deriving DecidableEq, Repr

/-- JS `arr.slice(-n)`: the suffix of the last `min n length` elements. -/
def sliceLast (n : Nat) (l : List α) : List α :=
  l.drop (l.length - n)

/-- The entry built inside `addLog`: `{ id: Date.now().toString(), text, type }`,
with the millisecond timestamp `now` modelled as a natural number. -/
def mkEntry (now : Nat) (text : String) (type : LogType) : LogEntry :=
  { id := Nat.repr now, text := text, type := type }

/-- One append step on the log sequence: `[...prev.slice(-15), e]`. -/
def addEntry (prev : List LogEntry) (e : LogEntry) : List LogEntry :=
  sliceLast 15 prev ++ [e]

/-- `addLog` from the source (line 145):
`setLogs(prev => [...prev.slice(-15), { id: Date.now().toString(), text, type }])`. -/
def addLog (now : Nat) (text : String) (type : LogType) (prev : List LogEntry) :
    List LogEntry :=
  addEntry prev (mkEntry now text type)

/-- `MetricState` from the source, with JS numbers idealised as rationals
(`views` is integral in the source: the seed is an integer and every
increment is `Math.floor` of a number, so it is modelled as `ℕ`). -/
structure MetricState where
  cpuLoad : ℚ
  flowVel : ℚ
  views : ℕ
  conversionRate : ℚ
  deriving DecidableEq, Repr

/-- JS `Math.round`: round half towards positive infinity, `⌊q + 1/2⌋`. -/
def jsRound (q : ℚ) : ℤ :=
  ⌊q + 1 / 2⌋

/-- JS `parseFloat(x.toFixed(2))`: round to two decimal places. -/
def toFixed2 (q : ℚ) : ℚ :=
  (jsRound (q * 100) : ℚ) / 100

/-- The metric tick from the source (lines 161-166), with the four
`Math.random()` draws (each in `[0,1)`) passed in as `r1 r2 r3 r4`:

    cpuLoad: Math.min(100, Math.max(0, prev.cpuLoad + (Math.random() - 0.5) * 4)),
    flowVel: Math.round(Math.min(2000, Math.max(100, prev.flowVel + (Math.random() - 0.5) * 80))),
    views: prev.views + Math.floor(Math.random() * 8),
    conversionRate: parseFloat((prev.conversionRate + (Math.random() - 0.5) * 0.15).toFixed(2))
-/
def updateSystem (prev : MetricState) (r1 r2 r3 r4 : ℚ) : MetricState :=
  { cpuLoad := min 100 (max 0 (prev.cpuLoad + (r1 - 1 / 2) * 4))
    flowVel := (jsRound (min 2000 (max 100 (prev.flowVel + (r2 - 1 / 2) * 80))) : ℚ)
    views := prev.views + (⌊r3 * 8⌋).toNat
    conversionRate := toFixed2 (prev.conversionRate + (r4 - 1 / 2) * (15 / 100)) }

/-- One metric tick where the random draws come bundled as a quadruple. -/
def tickWith (s : MetricState) (r : ℚ × ℚ × ℚ × ℚ) : MetricState :=
  updateSystem s r.1 r.2.1 r.2.2.1 r.2.2.2

/-- The step rotator from the source (line 179):
`setActiveStep(prev => (prev + 1) % 4)`. -/
def nextStep (i : Nat) : Nat :=
  (i + 1) % 4

/-- JS `String.prototype.trim`: strip whitespace from both ends. -/
def jsTrim (s : String) : String :=
  ⟨((s.data.dropWhile Char.isWhitespace).reverse.dropWhile Char.isWhitespace).reverse⟩

/-- JS `String.prototype.toUpperCase`, character by character. -/
def jsUpper (s : String) : String :=
  ⟨s.data.map Char.toUpper⟩

/-- Outcome of the `ai.models.generateContent` call as seen by `handleSync`:
either the promise resolves with a response whose `text` field is a string or
`undefined` (`Option String`), or it rejects (network error, timeout,
malformed response) and control reaches the `catch` block. -/
inductive AdvisorOutcome where
  | ok (text : Option String)
  | err
  deriving DecidableEq, Repr

/-- Source line 197: `response.text?.trim().toUpperCase()` with the
falsy-fallback string INSIGHT_FETCH_TIMEOUT: an absent `text` or an empty
trimmed-and-uppercased string is falsy, so the fallback string is taken. -/
def insightOf (t : Option String) : String :=
  match t with
  | none => "INSIGHT_FETCH_TIMEOUT"
  | some s =>
    let u := jsUpper (jsTrim s)
    if u = "" then "INSIGHT_FETCH_TIMEOUT" else u

/-- Text and kind of the log entry `handleSync` appends once the advisor
call settles: on resolution the insight text with kind ai (line 198), in
the catch block the text AI_GATEWAY_TIMEOUT with kind error (line 200). -/
def resultEntry (o : AdvisorOutcome) : String × LogType :=
  match o with
  | .ok t => (insightOf t, LogType.ai)
  | .err => ("AI_GATEWAY_TIMEOUT", LogType.error)

/-- The console state touched by `handleSync`: the log sequence and the
`isAiLoading` in-flight flag. -/
structure ConsoleState where
  logs : List LogEntry
  isAiLoading : Bool
  deriving DecidableEq, Repr

/-- The synchronous prefix of `handleSync` (lines 188-190), up to the
`await`: `if (isAiLoading) return;` then set the flag and append the
request entry.  The boolean reports whether an outbound request was
issued. -/
def triggerStart (now : Nat) (s : ConsoleState) : ConsoleState × Bool :=
  if s.isAiLoading then (s, false)
  else
    ({ logs := addLog now "REQUESTING_AI_INSIGHT..." LogType.ai s.logs,
       isAiLoading := true }, true)

/-- The continuation of `handleSync` after the `await` (lines 193-203):
append the result (or fallback) entry and clear the flag in `finally`. -/
def finishRequest (now : Nat) (o : AdvisorOutcome) (s : ConsoleState) : ConsoleState :=
  { logs := addLog now (resultEntry o).1 (resultEntry o).2 s.logs,
    isAiLoading := false }

/-- The initial metric state from the source (lines 127-132). -/
def initialMetrics : MetricState :=
  { cpuLoad := 42.8, flowVel := 892, views := 14284, conversionRate := 4.2 }

/-- Decimal digit string of a natural number, by structural value recursion:
the reference rendering that the fuelled core of `Nat.repr` is proved
equal to. -/
def decDigits (n : Nat) : List Char :=
  if h : n < 10 then [Nat.digitChar n]
  else
    have : n / 10 < n := Nat.div_lt_self (by omega) (by omega)
    decDigits (n / 10) ++ [Nat.digitChar (n % 10)]

theorem sliceLast_length (n : Nat) (l : List α) :
    (sliceLast n l).length = min n l.length := by
  simp [sliceLast]
  omega

theorem addEntry_eq_sliceLast (prev : List LogEntry) (e : LogEntry) :
    addEntry prev e = sliceLast 16 (prev ++ [e]) := by
  unfold addEntry sliceLast
  have h : (prev ++ [e]).length - 16 = prev.length - 15 := by
    simp only [List.length_append, List.length_cons, List.length_nil]
    omega
  rw [h, List.drop_append_of_le_length (by omega)]

theorem sliceLast_sliceLast_append (n : Nat) (l m : List α) :
    sliceLast n (sliceLast n l ++ m) = sliceLast n (l ++ m) := by
  unfold sliceLast
  rw [List.drop_append_eq_append_drop, List.drop_append_eq_append_drop, List.drop_drop]
  congr 2
  all_goals simp only [List.length_append, List.length_drop]
  all_goals omega

theorem addEntry_length_le (prev : List LogEntry) (e : LogEntry) :
    (addEntry prev e).length ≤ 16 := by
  simp [addEntry, sliceLast_length]

theorem foldl_addEntry_eq (es : List LogEntry) :
    ∀ init : List LogEntry, init.length ≤ 16 →
      es.foldl addEntry init = sliceLast 16 (init ++ es) := by
  induction es with
  | nil =>
    intro init hlen
    have h0 : init.length - 16 = 0 := by omega
    simp [sliceLast, h0]
  | cons e es ih =>
    intro init hlen
    rw [List.foldl_cons, ih (addEntry init e) (addEntry_length_le init e),
      addEntry_eq_sliceLast, sliceLast_sliceLast_append]
    simp

theorem sliceLast_append_of_le (init es : List LogEntry) (h : 16 ≤ es.length) :
    sliceLast 16 (init ++ es) = sliceLast 16 es := by
  unfold sliceLast
  rw [List.drop_append_eq_append_drop]
  rw [List.drop_eq_nil_of_le (by simp only [List.length_append]; omega)]
  rw [List.nil_append]
  congr 1
  simp only [List.length_append]
  omega

/-- C1: appending to the log yields the previous sequence with the new entry
at the end, truncated to the most recent 16 entries; hence the log never
exceeds 16 entries, and after appending more than 16 entries it equals the
last 16 appended entries in insertion order. -/
theorem addLog_ring_buffer :
    (∀ (prev : List LogEntry) (now : Nat) (text : String) (ty : LogType),
        addLog now text ty prev = sliceLast 16 (prev ++ [mkEntry now text ty]))
    ∧ (∀ (prev : List LogEntry) (now : Nat) (text : String) (ty : LogType),
        (addLog now text ty prev).length ≤ 16)
    ∧ (∀ (init es : List LogEntry), init.length ≤ 16 → 16 ≤ es.length →
        es.foldl addEntry init = sliceLast 16 es) := by
  refine ⟨fun prev now text ty => addEntry_eq_sliceLast prev _,
    fun prev now text ty => addEntry_length_le prev _,
    fun init es h1 h2 => ?_⟩
  rw [foldl_addEntry_eq es init h1, sliceLast_append_of_le init es h2]

theorem addLog_ring_buffer_witness :
    ([] : List LogEntry).length ≤ 16
    ∧ 16 ≤ (List.replicate 17 (mkEntry 0 "X" LogType.info)).length
    ∧ (List.replicate 17 (mkEntry 0 "X" LogType.info)).foldl addEntry [] =
        sliceLast 16 (List.replicate 17 (mkEntry 0 "X" LogType.info)) :=
  ⟨by decide, by decide, addLog_ring_buffer.2.2 [] _ (by decide) (by decide)⟩

/-- C2: starting from a state with `cpuLoad ∈ [0,100]` and
`flowVel ∈ [100,2000]`, one metric tick — whatever the random draws —
returns a state whose `cpuLoad` is again in `[0,100]` and whose `flowVel`
is again in `[100,2000]`. -/
theorem updateSystem_tick_bounds (prev : MetricState) (r1 r2 r3 r4 : ℚ)
    (hr1 : 0 ≤ r1) (hr1' : r1 < 1) (hr2 : 0 ≤ r2) (hr2' : r2 < 1)
    (hc0 : 0 ≤ prev.cpuLoad) (hc1 : prev.cpuLoad ≤ 100)
    (hf0 : 100 ≤ prev.flowVel) (hf1 : prev.flowVel ≤ 2000) :
    0 ≤ (updateSystem prev r1 r2 r3 r4).cpuLoad
    ∧ (updateSystem prev r1 r2 r3 r4).cpuLoad ≤ 100
    ∧ 100 ≤ (updateSystem prev r1 r2 r3 r4).flowVel
    ∧ (updateSystem prev r1 r2 r3 r4).flowVel ≤ 2000 := by
  simp only [updateSystem]
  set x : ℚ := min 2000 (max 100 (prev.flowVel + (r2 - 1 / 2) * 80)) with hx
  have hx0 : 100 ≤ x := le_min (by norm_num) (le_max_left _ _)
  have hx1 : x ≤ 2000 := min_le_left _ _
  refine ⟨le_min (by norm_num) (le_max_left _ _), min_le_left _ _, ?_, ?_⟩
  · have h : (100 : ℤ) ≤ jsRound x := by
      rw [jsRound, Int.le_floor]
      push_cast
      linarith
    exact_mod_cast h
  · have h : jsRound x ≤ (2000 : ℤ) := by
      have hlt : jsRound x < 2001 := by
        rw [jsRound, Int.floor_lt]
        push_cast
        linarith
      omega
    exact_mod_cast h

theorem updateSystem_tick_bounds_witness :
    (0 : ℚ) ≤ 1 / 2 ∧ (1 / 2 : ℚ) < 1
    ∧ 0 ≤ initialMetrics.cpuLoad ∧ initialMetrics.cpuLoad ≤ 100
    ∧ 100 ≤ initialMetrics.flowVel ∧ initialMetrics.flowVel ≤ 2000
    ∧ 0 ≤ (updateSystem initialMetrics (1 / 2) (1 / 2) (1 / 2) (1 / 2)).cpuLoad
    ∧ (updateSystem initialMetrics (1 / 2) (1 / 2) (1 / 2) (1 / 2)).cpuLoad ≤ 100
    ∧ 100 ≤ (updateSystem initialMetrics (1 / 2) (1 / 2) (1 / 2) (1 / 2)).flowVel
    ∧ (updateSystem initialMetrics (1 / 2) (1 / 2) (1 / 2) (1 / 2)).flowVel ≤ 2000 := by
  have h := updateSystem_tick_bounds initialMetrics (1 / 2) (1 / 2) (1 / 2) (1 / 2)
    (by norm_num) (by norm_num) (by norm_num) (by norm_num)
    (by norm_num [initialMetrics]) (by norm_num [initialMetrics])
    (by norm_num [initialMetrics]) (by norm_num [initialMetrics])
  refine ⟨by norm_num, by norm_num, by norm_num [initialMetrics], by norm_num [initialMetrics],
    by norm_num [initialMetrics], by norm_num [initialMetrics],
    h.1, h.2.1, h.2.2.1, h.2.2.2⟩

/-- C3: the step rotator maps index `i` to `(i + 1) % 4`; from any starting
index below 4, four advances return to the start, and `n` advances land on
`(i + n) % 4`, so the active index cycles `0,1,2,3,0,1,...` with period 4. -/
theorem nextStep_rotation :
    (∀ i : Nat, nextStep i = (i + 1) % 4)
    ∧ (∀ i : Nat, i < 4 → nextStep^[4] i = i)
    ∧ (∀ (i n : Nat), i < 4 → nextStep^[n] i = (i + n) % 4) := by
  have key : ∀ (n i : Nat), i < 4 → nextStep^[n] i = (i + n) % 4 := by
    intro n
    induction n with
    | zero =>
      intro i hi
      simp [Function.iterate_zero_apply]
      omega
    | succ n ih =>
      intro i hi
      rw [Function.iterate_succ_apply', ih i hi]
      unfold nextStep
      omega
  refine ⟨fun i => rfl, fun i hi => ?_, fun i n hi => key n i hi⟩
  rw [key 4 i hi]
  omega

theorem nextStep_rotation_witness :
    (2 : Nat) < 4 ∧ nextStep^[4] 2 = 2 ∧ nextStep^[7] 2 = (2 + 7) % 4 :=
  ⟨by decide, nextStep_rotation.2.1 2 (by decide), nextStep_rotation.2.2 2 7 (by decide)⟩

theorem tick_views_le (s : MetricState) (r : ℚ × ℚ × ℚ × ℚ) :
    s.views ≤ (tickWith s r).views := by
  simp only [tickWith, updateSystem]
  exact Nat.le_add_right _ _

/-- C6: one metric tick never decreases `views` (the increment is a
natural number, at most 7 when the draw lies in `[0,1)`), so `views` is
non-decreasing across any sequence of ticks. -/
theorem views_nondecreasing :
    (∀ (prev : MetricState) (r1 r2 r3 r4 : ℚ), 0 ≤ r3 → r3 < 1 →
        prev.views ≤ (updateSystem prev r1 r2 r3 r4).views
        ∧ (updateSystem prev r1 r2 r3 r4).views ≤ prev.views + 7)
    ∧ (∀ (prev : MetricState) (rs : List (ℚ × ℚ × ℚ × ℚ)),
        prev.views ≤ (rs.foldl tickWith prev).views) := by
  constructor
  · intro prev r1 r2 r3 r4 h0 h1
    simp only [updateSystem]
    refine ⟨Nat.le_add_right _ _, ?_⟩
    have hfl : ⌊r3 * 8⌋ < 8 := by
      rw [Int.floor_lt]
      push_cast
      linarith
    omega
  · intro prev rs
    induction rs generalizing prev with
    | nil => simp
    | cons r rs ih =>
      exact le_trans (tick_views_le prev r) (by simpa using ih (tickWith prev r))

theorem views_nondecreasing_witness :
    (0 : ℚ) ≤ 1 / 2 ∧ (1 / 2 : ℚ) < 1
    ∧ initialMetrics.views ≤ (updateSystem initialMetrics (1 / 2) (1 / 2) (1 / 2) (1 / 2)).views
    ∧ (updateSystem initialMetrics (1 / 2) (1 / 2) (1 / 2) (1 / 2)).views
        ≤ initialMetrics.views + 7 := by
  have h := views_nondecreasing.1 initialMetrics (1 / 2) (1 / 2) (1 / 2) (1 / 2)
    (by norm_num) (by norm_num)
  exact ⟨by norm_num, by norm_num, h.1, h.2⟩

theorem string_eq_empty_of_data (s : String) (h : s.data = []) : s = "" := by
  cases s with
  | mk d =>
    cases h
    rfl

theorem jsUpper_eq_empty (s : String) (h : jsUpper s = "") : s = "" := by
  have hd := congrArg String.data h
  simp only [jsUpper] at hd
  exact string_eq_empty_of_data s (List.map_eq_nil_iff.mp hd)

/-- C10: when the advisor call resolves with a text that is non-empty after
trimming, the result entry logged by `handleSync` carries the trimmed,
upper-cased text with kind `ai`. -/
theorem advisor_success_entry (t : String) (h : jsTrim t ≠ "") :
    resultEntry (AdvisorOutcome.ok (some t)) = (jsUpper (jsTrim t), LogType.ai) := by
  simp only [resultEntry, insightOf]
  have hne : jsUpper (jsTrim t) ≠ "" := fun he => h (jsUpper_eq_empty _ he)
  simp [hne]

theorem advisor_success_entry_witness :
    jsTrim " ok " ≠ ""
    ∧ resultEntry (AdvisorOutcome.ok (some " ok ")) = (jsUpper (jsTrim " ok "), LogType.ai) :=
  ⟨by decide, advisor_success_entry " ok " (by decide)⟩

/-- C4 counterexample: an advisor response whose text is empty is a failed
request in the sense of the claim, yet the logged entry is
`INSIGHT_FETCH_TIMEOUT` of kind `ai`, not `AI_GATEWAY_TIMEOUT` of kind
`error`. -/
theorem advisor_empty_text_entry :
    resultEntry (AdvisorOutcome.ok (some "")) = ("INSIGHT_FETCH_TIMEOUT", LogType.ai)
    ∧ resultEntry (AdvisorOutcome.ok (some "")) ≠ ("AI_GATEWAY_TIMEOUT", LogType.error) := by
  decide

/-- C4 amended: a request that rejects (network error, timeout, malformed
response) is logged exactly as `AI_GATEWAY_TIMEOUT` of kind `error`; a
request that resolves with absent or empty-after-trimming text is logged as
`INSIGHT_FETCH_TIMEOUT` of kind `ai`; in both cases `finishRequest` returns
normally and clears the in-flight flag, propagating nothing. -/
theorem advisor_failure_entries (o : AdvisorOutcome) :
    (o = AdvisorOutcome.err → resultEntry o = ("AI_GATEWAY_TIMEOUT", LogType.error))
    ∧ (∀ t : Option String, o = AdvisorOutcome.ok t → jsTrim (t.getD "") = "" →
        resultEntry o = ("INSIGHT_FETCH_TIMEOUT", LogType.ai))
    ∧ (∀ (now : Nat) (s : ConsoleState), (finishRequest now o s).isAiLoading = false) := by
  refine ⟨fun he => by subst he; rfl, fun t he ht => ?_, fun now s => rfl⟩
  subst he
  cases t with
  | none => rfl
  | some s =>
    simp only [Option.getD] at ht
    have hu : jsUpper "" = "" := rfl
    simp [resultEntry, insightOf, ht, hu]

theorem advisor_failure_entries_witness :
    jsTrim ((some "  ").getD "") = ""
    ∧ resultEntry (AdvisorOutcome.ok (some "  ")) = ("INSIGHT_FETCH_TIMEOUT", LogType.ai) :=
  ⟨by decide,
    (advisor_failure_entries (AdvisorOutcome.ok (some "  "))).2.1 (some "  ") rfl (by decide)⟩

theorem addEntry_addEntry (l : List LogEntry) (e1 e2 : LogEntry) :
    addEntry (addEntry l e1) e2 = sliceLast 16 (l ++ [e1, e2]) := by
  rw [addEntry_eq_sliceLast, addEntry_eq_sliceLast, sliceLast_sliceLast_append,
    List.append_assoc]
  rfl

/-- C5: invoking `triggerAdvisor` while a request is in flight is a no-op;
triggering twice before the first request settles issues exactly one
outbound request, and the final log gains exactly one request entry and one
result entry. -/
theorem trigger_twice_single_request (s : ConsoleState) (t1 t2 t3 : Nat)
    (o : AdvisorOutcome) (h : s.isAiLoading = false) :
    (triggerStart t1 s).2 = true
    ∧ (triggerStart t2 (triggerStart t1 s).1).2 = false
    ∧ (triggerStart t2 (triggerStart t1 s).1).1 = (triggerStart t1 s).1
    ∧ (finishRequest t3 o (triggerStart t2 (triggerStart t1 s).1).1).logs =
        sliceLast 16 (s.logs ++
          [mkEntry t1 "REQUESTING_AI_INSIGHT..." LogType.ai,
            mkEntry t3 (resultEntry o).1 (resultEntry o).2])
    ∧ (finishRequest t3 o (triggerStart t2 (triggerStart t1 s).1).1).isAiLoading = false := by
  have e1 : triggerStart t1 s =
      (ConsoleState.mk (addLog t1 "REQUESTING_AI_INSIGHT..." LogType.ai s.logs) true, true) := by
    simp [triggerStart, h]
  have e2 : triggerStart t2 (triggerStart t1 s).1 = ((triggerStart t1 s).1, false) := by
    rw [e1]
    simp [triggerStart]
  refine ⟨by rw [e1], by rw [e2], by rw [e2], ?_, by rw [e2, e1]; rfl⟩
  rw [e2, e1]
  simp only [finishRequest, addLog]
  exact addEntry_addEntry s.logs _ _

theorem trigger_twice_single_request_witness :
    (ConsoleState.mk [] false).isAiLoading = false
    ∧ ((triggerStart 1 (ConsoleState.mk [] false)).2 = true
    ∧ (triggerStart 2 (triggerStart 1 (ConsoleState.mk [] false)).1).2 = false
    ∧ (triggerStart 2 (triggerStart 1 (ConsoleState.mk [] false)).1).1 =
        (triggerStart 1 (ConsoleState.mk [] false)).1
    ∧ (finishRequest 3 AdvisorOutcome.err
        (triggerStart 2 (triggerStart 1 (ConsoleState.mk [] false)).1).1).logs =
        sliceLast 16 ((ConsoleState.mk [] false).logs ++
          [mkEntry 1 "REQUESTING_AI_INSIGHT..." LogType.ai,
            mkEntry 3 (resultEntry AdvisorOutcome.err).1 (resultEntry AdvisorOutcome.err).2])
    ∧ (finishRequest 3 AdvisorOutcome.err
        (triggerStart 2 (triggerStart 1 (ConsoleState.mk [] false)).1).1).isAiLoading = false) :=
  ⟨rfl, trigger_twice_single_request (ConsoleState.mk [] false) 1 2 3 AdvisorOutcome.err rfl⟩

/-- C8 counterexample: at a concrete idle state, the entry appended before
the advisor call has kind `ai`, not `info`.  The source passes the kind
ai to `addLog` on line 190. -/
theorem request_entry_kind_ai :
    (triggerStart 7 (ConsoleState.mk [] false)).1.logs =
      [mkEntry 7 "REQUESTING_AI_INSIGHT..." LogType.ai]
    ∧ (mkEntry 7 "REQUESTING_AI_INSIGHT..." LogType.ai).type ≠ LogType.info := by
  decide

/-- C8 amended: when no request is in flight, `triggerAdvisor` appends
exactly the entry with text `REQUESTING_AI_INSIGHT...` and kind `ai`
(and marks the request in flight). -/
theorem request_entry_shape (s : ConsoleState) (now : Nat) (h : s.isAiLoading = false) :
    (triggerStart now s).1.logs.getLast? =
      some (mkEntry now "REQUESTING_AI_INSIGHT..." LogType.ai)
    ∧ (triggerStart now s).1.isAiLoading = true := by
  simp only [triggerStart, h, if_false]
  exact ⟨List.getLast?_concat _, rfl⟩

theorem request_entry_shape_witness :
    (ConsoleState.mk [] false).isAiLoading = false
    ∧ (triggerStart 3 (ConsoleState.mk [] false)).1.logs.getLast? =
        some (mkEntry 3 "REQUESTING_AI_INSIGHT..." LogType.ai)
    ∧ (triggerStart 3 (ConsoleState.mk [] false)).1.isAiLoading = true :=
  ⟨rfl, (request_entry_shape (ConsoleState.mk [] false) 3 rfl).1,
    (request_entry_shape (ConsoleState.mk [] false) 3 rfl).2⟩

theorem digitChar_inj_lt10 :
    ∀ a : Nat, a < 10 → ∀ b : Nat, b < 10 → Nat.digitChar a = Nat.digitChar b → a = b := by
  decide

theorem decDigits_ne_nil (n : Nat) : decDigits n ≠ [] := by
  rw [decDigits]
  split <;> simp

theorem toDigitsCore_eq_decDigits :
    ∀ (fuel n : Nat) (acc : List Char), n < 10 ^ fuel → 0 < fuel →
      Nat.toDigitsCore 10 fuel n acc = decDigits n ++ acc := by
  intro fuel
  induction fuel with
  | zero =>
    intro n acc h h0
    omega
  | succ f ih =>
    intro n acc h _
    simp only [Nat.toDigitsCore]
    by_cases h10 : n / 10 = 0
    · have hn : n < 10 := by omega
      rw [if_pos h10, decDigits, dif_pos hn, Nat.mod_eq_of_lt hn]
      rfl
    · rw [if_neg h10]
      have hn : ¬n < 10 := by omega
      have hf : 0 < f := by
        rcases Nat.eq_zero_or_pos f with hf0 | hf0
        · subst hf0
          norm_num at h
          omega
        · exact hf0
      have hlt : n / 10 < 10 ^ f := by
        have hp : (10 : Nat) ^ (f + 1) = 10 ^ f * 10 := pow_succ 10 f
        omega
      rw [ih (n / 10) (Nat.digitChar (n % 10) :: acc) hlt hf]
      conv_rhs => rw [decDigits]
      rw [dif_neg hn, List.append_assoc]
      rfl

theorem decDigits_inj : ∀ m n : Nat, decDigits m = decDigits n → m = n := by
  intro m
  induction m using Nat.strong_induction_on with
  | _ m ih =>
    intro n hmn
    rw [decDigits] at hmn
    conv_rhs at hmn => rw [decDigits]
    by_cases hm : m < 10 <;> by_cases hn : n < 10
    · rw [dif_pos hm, dif_pos hn] at hmn
      exact digitChar_inj_lt10 m hm n hn (List.cons_eq_cons.mp hmn).1
    · rw [dif_pos hm, dif_neg hn] at hmn
      have hlen := congrArg List.length hmn
      have hp := List.length_pos.mpr (decDigits_ne_nil (n / 10))
      simp only [List.length_cons, List.length_nil, List.length_append] at hlen
      omega
    · rw [dif_neg hm, dif_pos hn] at hmn
      have hlen := congrArg List.length hmn
      have hp := List.length_pos.mpr (decDigits_ne_nil (m / 10))
      simp only [List.length_cons, List.length_nil, List.length_append] at hlen
      omega
    · rw [dif_neg hm, dif_neg hn] at hmn
      have hrev := congrArg List.reverse hmn
      simp only [List.reverse_append, List.reverse_cons, List.reverse_nil,
        List.nil_append, List.singleton_append] at hrev
      have hh := (List.cons_eq_cons.mp hrev).1
      have ht := (List.cons_eq_cons.mp hrev).2
      have hdiv : m / 10 = n / 10 := by
        have := congrArg List.reverse ht
        simp only [List.reverse_reverse] at this
        exact ih (m / 10) (Nat.div_lt_self (by omega) (by omega)) (n / 10) this
      have hmod : m % 10 = n % 10 :=
        digitChar_inj_lt10 (m % 10) (Nat.mod_lt m (by omega)) (n % 10)
          (Nat.mod_lt n (by omega)) hh
      have hm10 := Nat.div_add_mod m 10
      have hn10 := Nat.div_add_mod n 10
      omega

theorem nat_repr_inj (m n : Nat) (h : Nat.repr m = Nat.repr n) : m = n := by
  have key : ∀ k : Nat, Nat.toDigits 10 k = decDigits k := by
    intro k
    have h1 : k < 10 ^ (k + 1) :=
      lt_of_lt_of_le (Nat.lt_pow_self (by norm_num) k)
        (Nat.pow_le_pow_right (by norm_num) (Nat.le_succ k))
    have := toDigitsCore_eq_decDigits (k + 1) k [] h1 (Nat.succ_pos k)
    simpa [Nat.toDigits] using this
  unfold Nat.repr at h
  rw [key m, key n] at h
  have hd := congrArg String.data h
  simp only [List.asString] at hd
  exact decDigits_inj m n hd

/-- C7 counterexample: two entries appended with the same millisecond
timestamp (`Date.now()` value 5) receive the same id `"5"`, so the ids of
all entries ever appended are not pairwise distinct. -/
theorem same_timestamp_id_collision :
    addLog 5 "B" LogType.info (addLog 5 "A" LogType.info []) =
      [mkEntry 5 "A" LogType.info, mkEntry 5 "B" LogType.info]
    ∧ (mkEntry 5 "A" LogType.info).id = (mkEntry 5 "B" LogType.info).id
    ∧ mkEntry 5 "A" LogType.info ≠ mkEntry 5 "B" LogType.info := by
  decide

/-- C7 amended: the id of an appended entry is the decimal string of the append
timestamp, so entries appended at distinct timestamps receive distinct ids;
two appends processed in the same millisecond receive equal ids. -/
theorem entry_ids_distinct_of_times (t1 t2 : Nat) (x1 x2 : String)
    (k1 k2 : LogType) (h : t1 ≠ t2) :
    (mkEntry t1 x1 k1).id ≠ (mkEntry t2 x2 k2).id := by
  simp only [mkEntry]
  intro he
  exact h (nat_repr_inj t1 t2 he)

theorem entry_ids_distinct_of_times_witness :
    (1 : Nat) ≠ 2 ∧ (mkEntry 1 "A" LogType.info).id ≠ (mkEntry 2 "B" LogType.error).id :=
  ⟨by decide, entry_ids_distinct_of_times 1 2 "A" "B" LogType.info LogType.error (by decide)⟩

end DevConsole
